import Mathlib

/-!
Shallow embedding of the lagom episodic rollout data model and
return/advantage computation engine (`lagom.history`: `Transition`,
`Trajectory`, `Segment`, `History` and `lagom.history.metrics`).
The implementation module of this core is not present in the source tree;
only its test suite (`src/test/test_history.py`) is.  Every definition below
is therefore modelled from the design spec, and wherever the test suite pins
concrete observable behaviour the definitions follow the tests (the doc
comment of each such definition records the pinned behaviour).  Scalars
(states, actions, rewards, value estimates) are modelled as rationals so
that every derived quantity is exactly computable.
-/

set_option autoImplicit false

namespace Lagom

/-- Modelled from the spec: one immutable step record
(state, action, reward, next-state, done).  The mutable `info` side channel
is not needed by any claim and is omitted. -/
structure Transition where
  s : ℚ
  a : ℚ
  r : ℚ
  s_next : ℚ
  done : Bool
deriving DecidableEq, Repr

/-- Modelled from the spec: an ordered, append-only sequence of Transitions
belonging to one uninterrupted episode attempt. -/
structure Trajectory where
  transitions : List Transition
deriving DecidableEq, Repr

/-- Modelled from the spec: `T` is the number of stored Transitions. -/
def Trajectory.T (t : Trajectory) : Nat :=
  t.transitions.length

/-- Modelled from the spec: a trajectory is `complete` iff the last appended
Transition has `done = true` (an empty trajectory is not complete). -/
def Trajectory.complete (t : Trajectory) : Bool :=
  (t.transitions.getLast?.map Transition.done).getD false

/-- Modelled from the spec: `add_transition` fails (InvalidStateError,
surfaced as an AssertionError in the tests) when the trajectory is already
complete, and otherwise appends the transition.  Failure is modelled as
`none`; on failure the stored sequence is untouched. -/
def Trajectory.add_transition (t : Trajectory) (tr : Transition) : Option Trajectory :=
  if t.complete then none else some ⟨t.transitions ++ [tr]⟩

/-- Modelled from the spec: the per-step reward view `all_r`. -/
def Trajectory.all_r (t : Trajectory) : List ℚ :=
  t.transitions.map Transition.r

/-- Modelled from the spec: the per-step done-flag view `all_done`. -/
def Trajectory.all_done (t : Trajectory) : List Bool :=
  t.transitions.map Transition.done

/-- Modelled from the spec: un-discounted suffix returns,
`all_returns[i] = sum(reward[i:])`. -/
def suffixSums : List ℚ → List ℚ
  | [] => []
  | r :: rs => (r + rs.sum) :: suffixSums rs

/-- Modelled from the spec: the backward discounted scan
`acc = reward[T-1]; out[T-1] = acc; acc = reward[i] + g*acc; out[i] = acc`.
For the last element the head-default 0 makes `out[T-1] = reward[T-1]`. -/
def discountedReturns (g : ℚ) : List ℚ → List ℚ
  | [] => []
  | r :: rs => (r + g * (discountedReturns g rs).headD 0) :: discountedReturns g rs

/-- Modelled from the spec: `Trajectory.all_returns`, the suffix sums of the
rewards. -/
def Trajectory.all_returns (t : Trajectory) : List ℚ :=
  suffixSums t.all_r

/-- Modelled from the spec: `Trajectory.all_discounted_returns(g)`, the
backward discounted scan over the rewards. -/
def Trajectory.all_discounted_returns (t : Trajectory) (g : ℚ) : List ℚ :=
  discountedReturns g t.all_r

/-- Modelled from the spec: a fixed-length window of Transitions from one
environment, possibly crossing episode boundaries. -/
structure Segment where
  transitions : List Transition
deriving DecidableEq, Repr

/-- Modelled from the spec: `Segment.add_transition` appends
unconditionally. -/
def Segment.add_transition (s : Segment) (tr : Transition) : Segment :=
  ⟨s.transitions ++ [tr]⟩

/-- Modelled from the spec: `Segment.T` is the number of stored
Transitions. -/
def Segment.T (s : Segment) : Nat :=
  s.transitions.length

/-- Modelled from the spec: the partitioning scan.  `cur` holds the
(reversed) transitions of the partition being built; a new partition starts
immediately after every `done = true` transition that is not at the last
index, and the last transition always closes the current partition. -/
def partitionAux : List Transition → List Transition → List (List Transition)
  | _, [] => []
  | cur, [tr] => [(tr :: cur).reverse]
  | cur, tr :: rest =>
    if tr.done then (tr :: cur).reverse :: partitionAux [] rest
    else partitionAux (tr :: cur) rest

/-- Modelled from the spec: `Segment.trajectories`, the partition of the
window into Trajectories at done-boundaries. -/
def Segment.trajectories (s : Segment) : List Trajectory :=
  (partitionAux [] s.transitions).map Trajectory.mk

/-- Modelled from the spec: the flat per-step reward view of a Segment. -/
def Segment.all_r (s : Segment) : List ℚ :=
  s.transitions.map Transition.r

/-- Modelled from the spec: `Segment.all_returns` applies the Trajectory
suffix-sum algorithm independently to each partition and concatenates the
per-partition results in partition order. -/
def Segment.all_returns (s : Segment) : List ℚ :=
  (s.trajectories.map Trajectory.all_returns).flatten

/-- Modelled from the spec: `Segment.all_discounted_returns(g)` applies the
Trajectory backward discounted scan independently to each partition and
concatenates the per-partition results in partition order. -/
def Segment.all_discounted_returns (s : Segment) (g : ℚ) : List ℚ :=
  (s.trajectories.map (fun t => t.all_discounted_returns g)).flatten

/-- Modelled from the spec: `terminal_state_from_trajectory` returns the
trailing next-state iff the trajectory is complete, else the absent value
(`None`, modelled as `none`). -/
def terminal_state_from_trajectory (t : Trajectory) : Option ℚ :=
  if t.complete then t.transitions.getLast?.map Transition.s_next else none

/-- Modelled from the spec: `final_state_from_trajectory` returns the
trailing next-state unconditionally. -/
def final_state_from_trajectory (t : Trajectory) : Option ℚ :=
  t.transitions.getLast?.map Transition.s_next

/-- Modelled from the spec: `terminal_state_from_segment` returns one
terminal state per partition that is itself complete; incomplete partitions
are skipped, not padded. -/
def terminal_state_from_segment (s : Segment) : List ℚ :=
  s.trajectories.filterMap terminal_state_from_trajectory

/-- Modelled from the spec: `final_state_from_segment` returns one final
next-state per partition unconditionally. -/
def final_state_from_segment (s : Segment) : List ℚ :=
  s.trajectories.filterMap final_state_from_trajectory

/-- Modelled from the spec: the shared bootstrapped-returns recurrence.
`acc = V_last`; for the structurally last reward the factor
`(not done at T-1)` zeroes the bootstrap exactly when `lastDone` holds, and
every earlier step uses `acc = reward[i] + g * acc`. -/
def bootReturns (g vlast : ℚ) (lastDone : Bool) : List ℚ → List ℚ
  | [] => []
  | [r] => [r + (if lastDone then 0 else g * vlast)]
  | r :: rs => (r + g * (bootReturns g vlast lastDone rs).headD 0) :: bootReturns g vlast lastDone rs

/-- Modelled from the spec: `bootstrapped_returns_from_trajectory` runs the
shared recurrence on the trajectory rewards, zeroing the bootstrap iff the
trajectory is complete. -/
def bootstrapped_returns_from_trajectory (t : Trajectory) (vlast g : ℚ) : List ℚ :=
  bootReturns g vlast t.complete t.all_r

/-- Modelled from the spec: `bootstrapped_returns_from_segment` applies the
recurrence independently per partition, consuming one `V_last` entry per
partition, and concatenates; a `V_last` sequence whose length differs from
the number of partitions is rejected. -/
def bootstrapped_returns_from_segment (s : Segment) (allVlast : List ℚ) (g : ℚ) :
    Option (List ℚ) :=
  if allVlast.length = s.trajectories.length then
    some ((List.zipWith
      (fun t vlast => bootReturns g vlast t.complete t.all_r)
      s.trajectories allVlast).flatten)
  else none

/-- Modelled from the spec: the TD(0) target core,
`target[i] = reward[i] + g * values[i+1]`. -/
def td0_target_core (g : ℚ) (rs vs : List ℚ) : List ℚ :=
  List.zipWith (fun r v => r + g * v) rs (vs.drop 1)

/-- Modelled from the spec: `td0_target(rewards, values, g)` requires
`len(values) = len(rewards) + 1` and `0 ≤ g ≤ 1` (violations are
AssertionErrors, modelled as `none`). -/
def td0_target (rs vs : List ℚ) (g : ℚ) : Option (List ℚ) :=
  if vs.length = rs.length + 1 ∧ 0 ≤ g ∧ g ≤ 1 then some (td0_target_core g rs vs)
  else none

/-- Modelled from the spec: `td0_error(rewards, values, g)`,
`error[i] = target[i] - values[i]` with the same validity checks. -/
def td0_error (rs vs : List ℚ) (g : ℚ) : Option (List ℚ) :=
  if vs.length = rs.length + 1 ∧ 0 ≤ g ∧ g ≤ 1 then
    some (List.zipWith (fun tg v => tg - v) (td0_target_core g rs vs) vs)
  else none

/-- Modelled from the spec: `td0_target_from_trajectory` threads the plain
`td0_target` through the trajectory, appending the bootstrap value to the
value sequence and zeroing it exactly when the last transition is
terminal. -/
def td0_target_from_trajectory (t : Trajectory) (vs : List ℚ) (vlast g : ℚ) :
    Option (List ℚ) :=
  td0_target t.all_r (vs ++ [if t.complete then 0 else vlast]) g

/-- Modelled from the spec: `td0_error_from_trajectory`, the trajectory
targets minus the supplied per-step values. -/
def td0_error_from_trajectory (t : Trajectory) (vs : List ℚ) (vlast g : ℚ) :
    Option (List ℚ) :=
  td0_error t.all_r (vs ++ [if t.complete then 0 else vlast]) g

/-- Modelled from the spec: the GAE backward recurrence shares the shape of
the discounted scan with discount `g * lam`; `gae` additionally requires
`0 ≤ g ≤ 1` and `0 ≤ lam ≤ 1` (violations are AssertionErrors, modelled as
`none`). -/
def gae (input : List ℚ) (g lam : ℚ) : Option (List ℚ) :=
  if 0 ≤ g ∧ g ≤ 1 ∧ 0 ≤ lam ∧ lam ≤ 1 then some (discountedReturns (g * lam) input)
  else none

/-- Modelled from the spec: `gae_from_trajectory` first computes the
one-step TD errors of the trajectory and then applies the GAE backward
recurrence to them. -/
def gae_from_trajectory (t : Trajectory) (vs : List ℚ) (vlast g lam : ℚ) :
    Option (List ℚ) :=
  (td0_error_from_trajectory t vs vlast g).bind (fun ds => gae ds g lam)

/-- Modelled from the spec: the per-partition TD errors of a Segment
partition, using that partition's own value sequence and bootstrap value. -/
def td0_error_one (g : ℚ) (t : Trajectory) (vs : List ℚ) (vlast : ℚ) : List ℚ :=
  List.zipWith (fun tg v => tg - v)
    (td0_target_core g t.all_r (vs ++ [if t.complete then 0 else vlast])) vs

/-- Modelled from the spec: `gae_from_segment` computes the one-step TD
errors per partition and applies the GAE recurrence within each partition
independently, concatenating the per-partition results; the per-partition
value sequences and bootstrap values must match the partitions. -/
def gae_from_segment (s : Segment) (allVs : List (List ℚ)) (allVlast : List ℚ)
    (g lam : ℚ) : Option (List ℚ) :=
  if allVs.length = s.trajectories.length ∧ allVlast.length = s.trajectories.length
      ∧ (List.zip s.trajectories allVs).all (fun pv => pv.2.length = pv.1.T)
      ∧ 0 ≤ g ∧ g ≤ 1 ∧ 0 ≤ lam ∧ lam ≤ 1 then
    some ((List.zipWith
      (fun pv vlast => discountedReturns (g * lam) (td0_error_one g pv.1 pv.2 vlast))
      (List.zip s.trajectories allVs) allVlast).flatten)
  else none

/-- Modelled from the spec: a preallocated batched buffer across `N`
parallel environments for a fixed horizon `T`.  Observations are
`N × (T+1) × obsDim`, rewards and dones are `N × T`, `infos` has one
optional slot per timestep, and named annotations are kept in an
object-level map (`scalars`, filled by `add`) and a per-timestep map
(`arrays`, filled by `add_t`). -/
structure History where
  N : Nat
  T : Nat
  obsDim : Nat
  observations : List (List (List ℚ))
  rewards : List (List ℚ)
  dones : List (List Bool)
  infos : List (Option (List (List (String × ℚ))))
  extra_info : List (String × ℚ)
  scalars : List (String × ℚ)
  arrays : List (String × List (Option ℚ))
deriving DecidableEq, Repr

/-- Modelled from the spec: History construction preallocates the arrays.
Observations and rewards are zero-filled; `dones` is preallocated to `true`
(pinned by `src/test/test_history.py:383`, which asserts
`history.dones[:, 1:]` is all `True` after only column 0 was written);
`infos` is a length-`T` list of unset (`None`) slots. -/
def History.make (n t obsDim : Nat) : History where
  N := n
  T := t
  obsDim := obsDim
  observations := List.replicate n (List.replicate (t + 1) (List.replicate obsDim 0))
  rewards := List.replicate n (List.replicate t 0)
  dones := List.replicate n (List.replicate t true)
  infos := List.replicate t none
  extra_info := []
  scalars := []
  arrays := []

/-- Modelled from the spec and pinned by `src/test/test_history.py:387-388`:
`masks` is derived from `dones` elementwise, `masks[n, t] = 1 - dones[n, t]`
(the test writes `dones[:, 0] = False` and then observes `masks[:, 0] = 1`
and `masks[:, 1:] = 0`, which rules out the shifted-by-one reading). -/
def History.masks (h : History) : List (List ℚ) :=
  h.dones.map (List.map (fun d => if d then 0 else 1))

/-- A rollout-driver write of one `dones` cell (row `n`, column `t`). -/
def History.setDone (h : History) (n t : Nat) (d : Bool) : History :=
  { h with dones := h.dones.set n ((h.dones.getD n []).set t d) }

/-- Modelled from the spec: `add(name, value)` stores an object-level
one-shot field and fails (DuplicateKeyError, an AssertionError in the
tests) on a second call with the same name. -/
def History.add (h : History) (name : String) (v : ℚ) : Option History :=
  if (h.scalars.lookup name).isSome then none
  else some { h with scalars := (name, v) :: h.scalars }

/-- Modelled from the spec: `add_t(name, t, value)` stores `value` at
timestep `t` of the per-timestep array for `name`, allocating a length-`T`
all-`None` array on the first call for that name, and fails when
`t ∉ [0, T)`.  The argument order `(name, t, value)` is pinned by
`src/test/test_history.py:363-365`: `add_t('oh', 3, -5)` stores `-5` at
index `3` of a length-5 array. -/
def History.add_t (h : History) (name : String) (t : Int) (v : ℚ) : Option History :=
  if 0 ≤ t ∧ t < (h.T : Int) then
    let arr := match h.arrays.lookup name with
      | some a => a
      | none => List.replicate h.T (none : Option ℚ)
    some { h with arrays := (name, arr.set t.toNat (some v)) :: h.arrays }
  else none

/-- Test fixture (`test_segment`, done pattern `[F,F,F,F]`): states
`10,20,30,40 → 50`, actions `-1..-4`, rewards `1..4`. -/
def segFFFF : Segment :=
  ⟨[⟨10, -1, 1, 20, false⟩, ⟨20, -2, 2, 30, false⟩,
    ⟨30, -3, 3, 40, false⟩, ⟨40, -4, 4, 50, false⟩]⟩

/-- Test fixture (`test_segment`, done pattern `[F,T,F,F]`): two partitions
of length 2 each. -/
def segFTFF : Segment :=
  ⟨[⟨10, -1, 1, 20, false⟩, ⟨20, -2, 2, 30, true⟩,
    ⟨35, -3, 3, 40, false⟩, ⟨40, -4, 4, 50, false⟩]⟩

/-- Test fixture (`test_segment`, done pattern `[T,T,F,T]`): three
partitions of lengths 1, 1, 2. -/
def segTTFT : Segment :=
  ⟨[⟨10, -1, 1, 20, true⟩, ⟨25, -2, 2, 30, true⟩,
    ⟨35, -3, 3, 40, false⟩, ⟨40, -4, 4, 50, true⟩]⟩

/-- Test fixture: the complete 3-step trajectory with rewards
`0.1, 0.2, 0.3` and next-states `2, 3, 4` (last done = true). -/
def trajComplete3 : Trajectory :=
  ⟨[⟨1, 10, 0.1, 2, false⟩, ⟨2, 20, 0.2, 3, false⟩, ⟨3, 30, 0.3, 4, true⟩]⟩

/-- Test fixture: the incomplete variant of `trajComplete3`
(same rewards, last done = false). -/
def trajOpen3 : Trajectory :=
  ⟨[⟨1, 10, 0.1, 2, false⟩, ⟨2, 20, 0.2, 3, false⟩, ⟨3, 30, 0.3, 4, false⟩]⟩

/-- Test fixture: 4-step incomplete trajectory with rewards
`0.1..0.4` (used by the td0/gae trajectory tests). -/
def trajOpen4 : Trajectory :=
  ⟨[⟨1, 10, 0.1, 2, false⟩, ⟨2, 20, 0.2, 3, false⟩,
    ⟨3, 30, 0.3, 4, false⟩, ⟨4, 40, 0.4, 5, false⟩]⟩

/-- Test fixture: `trajOpen4` with its last `done` flipped to true. -/
def trajDone4 : Trajectory :=
  ⟨[⟨1, 10, 0.1, 2, false⟩, ⟨2, 20, 0.2, 3, false⟩,
    ⟨3, 30, 0.3, 4, false⟩, ⟨4, 40, 0.4, 5, true⟩]⟩

/-- Test fixture: 5-step segment with done pattern `[F,F,T,F,T]`
(two complete partitions), rewards `0.1, 0.2, 0.3, 0.5, 0.6`. -/
def segFFTFT : Segment :=
  ⟨[⟨1, 10, 0.1, 2, false⟩, ⟨2, 20, 0.2, 3, false⟩, ⟨3, 30, 0.3, 4, true⟩,
    ⟨5, 50, 0.5, 6, false⟩, ⟨6, 60, 0.6, 7, true⟩]⟩

/-- Test fixture: 5-step segment with done pattern `[F,F,T,F,F]`
(complete first partition, incomplete trailing partition). -/
def segFFTFF : Segment :=
  ⟨[⟨1, 10, 0.1, 2, false⟩, ⟨2, 20, 0.2, 3, false⟩, ⟨3, 30, 0.3, 4, true⟩,
    ⟨5, 50, 0.5, 6, false⟩, ⟨6, 60, 0.6, 7, false⟩]⟩

/-- Test fixture (`test_history`): a History for N = 3, T = 5,
obs-dim 4, after the driver wrote `dones[:, 0] = False` (one environment
step of a non-terminating environment). -/
def historyWritten : History :=
  (((History.make 3 5 4).setDone 0 0 false).setDone 1 0 false).setDone 2 0 false

theorem headD_suffixSums (rs : List ℚ) : (suffixSums rs).headD 0 = rs.sum := by
  cases rs <;> simp [suffixSums]

theorem suffixSums_eq_discountedReturns_one (rs : List ℚ) :
    suffixSums rs = discountedReturns 1 rs := by
  induction rs with
  | nil => rfl
  | cons r rs ih =>
    have hh := headD_suffixSums rs
    simp only [suffixSums, discountedReturns, one_mul, ← ih]
    rw [hh]

theorem length_discountedReturns (g : ℚ) (xs : List ℚ) :
    (discountedReturns g xs).length = xs.length := by
  induction xs with
  | nil => rfl
  | cons x xs ih => simp [discountedReturns, ih]

theorem getLast?_discountedReturns (g : ℚ) (xs : List ℚ) :
    (discountedReturns g xs).getLast? = xs.getLast? := by
  induction xs with
  | nil => rfl
  | cons x xs ih =>
    cases xs with
    | nil => simp [discountedReturns]
    | cons y ys =>
      have h : discountedReturns g (y :: ys) =
          (y + g * (discountedReturns g ys).headD 0) :: discountedReturns g ys := rfl
      have h2 : discountedReturns g (x :: y :: ys) =
          (x + g * ((discountedReturns g (y :: ys)).headD 0)) ::
            discountedReturns g (y :: ys) := rfl
      rw [h2, h, List.getLast?_cons_cons, ← h, ih, List.getLast?_cons_cons]

theorem getD_zero_headD (l : List ℚ) : l.getD 0 0 = l.headD 0 := by
  cases l <;> rfl

theorem discountedReturns_getD (g : ℚ) (xs : List ℚ) : ∀ i : ℕ,
    (discountedReturns g xs).getD i 0 =
      xs.getD i 0 + g * (discountedReturns g xs).getD (i + 1) 0 := by
  induction xs with
  | nil => intro i; simp [discountedReturns]
  | cons x xs ih =>
    intro i
    cases i with
    | zero =>
      show x + g * (discountedReturns g xs).headD 0
        = x + g * (discountedReturns g xs).getD 0 0
      rw [getD_zero_headD]
    | succ n => simpa [discountedReturns] using ih n

theorem bootReturns_true_vlast (g v₁ v₂ : ℚ) (rs : List ℚ) :
    bootReturns g v₁ true rs = bootReturns g v₂ true rs := by
  induction rs with
  | nil => rfl
  | cons r rs ih =>
    cases rs with
    | nil => simp [bootReturns]
    | cons r2 rt =>
      simp only [bootReturns]
      rw [ih]

theorem bootReturns_last_complete (g v r : ℚ) : bootReturns g v true [r] = [r] := by
  simp [bootReturns]

theorem bootReturns_last_incomplete (g v r : ℚ) :
    bootReturns g v false [r] = [r + g * v] := by
  simp [bootReturns]

theorem partitionAux_flatten (l : List Transition) : ∀ cur : List Transition,
    (partitionAux cur l).flatten = if l = [] then [] else cur.reverse ++ l := by
  induction l with
  | nil => intro cur; simp [partitionAux]
  | cons tr rest ih =>
    intro cur
    cases rest with
    | nil => simp [partitionAux]
    | cons r2 rt =>
      cases hdone : tr.done with
      | true => simp [partitionAux, hdone, ih]
      | false => simp [partitionAux, hdone, ih]

theorem partitionAux_ne_nil (l : List Transition) :
    ∀ cur p, p ∈ partitionAux cur l → p ≠ [] := by
  induction l with
  | nil => intro cur p hp; simp [partitionAux] at hp
  | cons tr rest ih =>
    intro cur p hp
    cases rest with
    | nil =>
      simp [partitionAux] at hp
      simp [hp]
    | cons r2 rt =>
      cases hdone : tr.done with
      | true =>
        simp [partitionAux, hdone] at hp
        rcases hp with h | h
        · simp [h]
        · exact ih [] p h
      | false =>
        simp only [partitionAux, hdone, Bool.false_eq_true, if_false] at hp
        exact ih (tr :: cur) p hp

theorem partitionAux_internal_not_done (l : List Transition) :
    ∀ cur, (∀ x ∈ cur, x.done = false) →
      ∀ p ∈ partitionAux cur l, ∀ x ∈ p.dropLast, x.done = false := by
  induction l with
  | nil => intro cur _ p hp; simp [partitionAux] at hp
  | cons tr rest ih =>
    intro cur hcur p hp x hx
    cases rest with
    | nil =>
      simp [partitionAux] at hp
      subst hp
      rw [List.dropLast_concat] at hx
      exact hcur x (List.mem_reverse.mp hx)
    | cons r2 rt =>
      cases hdone : tr.done with
      | true =>
        simp [partitionAux, hdone] at hp
        rcases hp with h | h
        · subst h
          rw [List.dropLast_concat] at hx
          exact hcur x (List.mem_reverse.mp hx)
        · exact ih [] (by simp) p h x hx
      | false =>
        simp only [partitionAux, hdone, Bool.false_eq_true, if_false] at hp
        refine ih (tr :: cur) ?_ p hp x hx
        intro y hy
        rcases List.mem_cons.mp hy with h | h
        · subst h; exact hdone
        · exact hcur y h

theorem length_filterMap_of_isSome {α β : Type} (f : α → Option β) (l : List α)
    (h : ∀ x ∈ l, (f x).isSome) : (l.filterMap f).length = l.length := by
  induction l with
  | nil => rfl
  | cons a l ih =>
    have ha := h a (List.mem_cons_self a l)
    cases hfa : f a with
    | none => rw [hfa] at ha; simp at ha
    | some b =>
      rw [List.filterMap_cons, hfa]
      simp only [List.length_cons]
      rw [ih (fun x hx => h x (List.mem_cons_of_mem a hx))]

theorem filterMap_terminal_eq_filter (l : List Trajectory) :
    l.filterMap terminal_state_from_trajectory =
      (l.filter Trajectory.complete).filterMap final_state_from_trajectory := by
  induction l with
  | nil => rfl
  | cons t l ih =>
    cases h : t.complete with
    | true =>
      simp [List.filterMap_cons, List.filter_cons, h, terminal_state_from_trajectory,
        final_state_from_trajectory, ih]
    | false =>
      simp [List.filterMap_cons, List.filter_cons, h, terminal_state_from_trajectory, ih]

theorem trajectories_flatten (s : Segment) :
    (s.trajectories.map Trajectory.transitions).flatten = s.transitions := by
  unfold Segment.trajectories
  rw [List.map_map]
  have hid : (Trajectory.transitions ∘ Trajectory.mk) = id := rfl
  rw [hid, List.map_id]
  cases h : s.transitions with
  | nil => simp [partitionAux]
  | cons tr rest => rw [partitionAux_flatten]; simp

theorem trajectories_ne_nil (s : Segment) (p : Trajectory) (hp : p ∈ s.trajectories) :
    p.transitions ≠ [] := by
  unfold Segment.trajectories at hp
  rcases List.mem_map.mp hp with ⟨l, hl, rfl⟩
  exact partitionAux_ne_nil _ _ _ hl

theorem trajectories_internal_not_done (s : Segment) (p : Trajectory)
    (hp : p ∈ s.trajectories) (x : Transition) (hx : x ∈ p.transitions.dropLast) :
    x.done = false := by
  unfold Segment.trajectories at hp
  rcases List.mem_map.mp hp with ⟨l, hl, rfl⟩
  exact partitionAux_internal_not_done _ _ (by simp) l hl x hx

theorem partitionAux_ne_nil_list (l : List Transition) :
    ∀ cur, l ≠ [] → partitionAux cur l ≠ [] := by
  induction l with
  | nil => intro cur h; exact absurd rfl h
  | cons tr rest ih =>
    intro cur _
    cases rest with
    | nil => simp [partitionAux]
    | cons r2 rt =>
      cases hdone : tr.done with
      | true => simp [partitionAux, hdone]
      | false =>
        simp only [partitionAux, hdone, Bool.false_eq_true, if_false]
        exact ih (tr :: cur) (by simp)

theorem partitionAux_dropLast_done (l : List Transition) :
    ∀ cur p, p ∈ (partitionAux cur l).dropLast →
      ∃ tr, p.getLast? = some tr ∧ tr.done = true := by
  induction l with
  | nil => intro cur p hp; simp [partitionAux] at hp
  | cons tr rest ih =>
    intro cur p hp
    cases rest with
    | nil => simp [partitionAux] at hp
    | cons r2 rt =>
      cases hdone : tr.done with
      | true =>
        have hne := partitionAux_ne_nil_list (r2 :: rt) [] (by simp)
        rw [show partitionAux cur (tr :: r2 :: rt)
            = (tr :: cur).reverse :: partitionAux [] (r2 :: rt) from by
          simp [partitionAux, hdone]] at hp
        rw [List.dropLast_cons_of_ne_nil hne] at hp
        rcases List.mem_cons.mp hp with h | h
        · subst h
          exact ⟨tr, by simp, hdone⟩
        · exact ih [] p h
      | false =>
        simp only [partitionAux, hdone, Bool.false_eq_true, if_false] at hp
        exact ih (tr :: cur) p hp

theorem trajectories_dropLast_complete (s : Segment) (p : Trajectory)
    (hp : p ∈ s.trajectories.dropLast) : p.complete = true := by
  unfold Segment.trajectories at hp
  rw [← List.map_dropLast] at hp
  rcases List.mem_map.mp hp with ⟨l, hl, rfl⟩
  rcases partitionAux_dropLast_done _ _ _ hl with ⟨tr, hlast, hdone⟩
  simp [Trajectory.complete, hlast, hdone]

theorem final_state_isSome (s : Segment) (p : Trajectory) (hp : p ∈ s.trajectories) :
    (final_state_from_trajectory p).isSome := by
  have hne := trajectories_ne_nil s p hp
  simp [final_state_from_trajectory, List.getLast?_isSome, hne]

theorem length_final_state_from_segment (s : Segment) :
    (final_state_from_segment s).length = s.trajectories.length :=
  length_filterMap_of_isSome _ _ (fun p hp => final_state_isSome s p hp)

theorem zipWith_target_getD (g : ℚ) : ∀ (rs ws : List ℚ), rs.length = ws.length →
    ∀ i, (List.zipWith (fun r v => r + g * v) rs ws).getD i 0
      = rs.getD i 0 + g * ws.getD i 0 := by
  intro rs
  induction rs with
  | nil =>
    intro ws h i
    have hw : ws = [] := by
      cases ws with
      | nil => rfl
      | cons w wt => simp at h
    subst hw
    simp
  | cons r rt ih =>
    intro ws h i
    cases ws with
    | nil => simp at h
    | cons w wt =>
      simp only [List.length_cons, Nat.succ.injEq] at h
      cases i with
      | zero => simp
      | succ n => simpa using ih wt h n

theorem td0_target_core_getD (g : ℚ) (rs vs : List ℚ)
    (hlen : vs.length = rs.length + 1) (i : ℕ) :
    (td0_target_core g rs vs).getD i 0 = rs.getD i 0 + g * vs.getD (i + 1) 0 := by
  cases vs with
  | nil => simp at hlen
  | cons v vt =>
    simp only [List.length_cons, Nat.succ.injEq] at hlen
    unfold td0_target_core
    rw [show (v :: vt).drop 1 = vt from rfl]
    rw [zipWith_target_getD g rs vt hlen.symm i]
    rfl

/-- C1: For every Segment, `all_returns` and `all_discounted_returns(γ)`
equal the corresponding Trajectory algorithm (undiscounted suffix sums,
which coincide with the backward discounted scan at γ = 1) applied
independently to each partition-Trajectory, with the per-partition results
concatenated in partition order, so returns never accumulate across an
episode boundary: on the `[F,T,F,F]` segment with rewards 1,2,3,4 the
result is `[3,2,7,4]` (and `[1.2,2,3.4,4]` at γ = 0.1), which differs from
the boundary-ignoring whole-window suffix sums `[10,9,7,4]`. -/
theorem claim_C1_segment_returns_per_partition :
    (∀ s : Segment, s.all_returns = (s.trajectories.map Trajectory.all_returns).flatten)
    ∧ (∀ (s : Segment) (g : ℚ), s.all_discounted_returns g
        = (s.trajectories.map (fun t => t.all_discounted_returns g)).flatten)
    ∧ (∀ rs : List ℚ, suffixSums rs = discountedReturns 1 rs)
    ∧ segFTFF.all_returns = [3, 2, 7, 4]
    ∧ segFTFF.all_discounted_returns (1/10) = [1.2, 2, 3.4, 4]
    ∧ suffixSums segFTFF.all_r = [10, 9, 7, 4]
    ∧ segFTFF.all_returns ≠ suffixSums segFTFF.all_r :=
  ⟨fun _ => rfl, fun _ _ => rfl, suffixSums_eq_discountedReturns_one,
    by
      norm_num [Segment.all_returns, Segment.trajectories, segFTFF, partitionAux,
        Trajectory.all_returns, Trajectory.all_r, suffixSums],
    by
      norm_num [Segment.all_discounted_returns, Segment.trajectories, segFTFF,
        partitionAux, Trajectory.all_discounted_returns, Trajectory.all_r,
        discountedReturns],
    by norm_num [segFTFF, Segment.all_r, suffixSums],
    by
      norm_num [Segment.all_returns, Segment.trajectories, segFTFF, partitionAux,
        Trajectory.all_returns, Trajectory.all_r, suffixSums, Segment.all_r]⟩

/-- C5: For every Segment, the computed partitions start at index 0 and
immediately after every done-transition that is not at the last index:
concatenating the partitions' Transitions reproduces the Segment's own
Transition sequence exactly; every partition is non-empty; no partition
contains a done-transition before its last element; every partition except
possibly the trailing one is complete; and the done pattern `[T,T,F,T]`
yields exactly 3 partitions of lengths 1, 1, 2. -/
theorem claim_C5_segment_partition :
    (∀ s : Segment, (s.trajectories.map Trajectory.transitions).flatten = s.transitions)
    ∧ (∀ (s : Segment) (p : Trajectory), p ∈ s.trajectories → p.transitions ≠ [])
    ∧ (∀ (s : Segment) (p : Trajectory), p ∈ s.trajectories →
        ∀ x ∈ p.transitions.dropLast, x.done = false)
    ∧ (∀ (s : Segment) (p : Trajectory), p ∈ s.trajectories.dropLast → p.complete = true)
    ∧ segTTFT.trajectories.map Trajectory.T = [1, 1, 2] :=
  ⟨trajectories_flatten, trajectories_ne_nil,
    fun s p hp x hx => trajectories_internal_not_done s p hp x hx,
    trajectories_dropLast_complete, by decide⟩

/-- C5 witness: the general clauses instantiated on the concrete
`[T,T,F,T]` segment: its first partition (a singleton) is non-empty and
complete, and the inner transition of its third partition has
`done = false`. -/
theorem claim_C5_segment_partition_witness :
    (Trajectory.mk [⟨10, -1, 1, 20, true⟩]).transitions ≠ []
    ∧ Transition.done ⟨35, -3, 3, 40, false⟩ = false
    ∧ (Trajectory.mk [⟨10, -1, 1, 20, true⟩]).complete = true :=
  ⟨claim_C5_segment_partition.2.1 segTTFT ⟨[⟨10, -1, 1, 20, true⟩]⟩ (by decide),
    claim_C5_segment_partition.2.2.1 segTTFT
      ⟨[⟨35, -3, 3, 40, false⟩, ⟨40, -4, 4, 50, true⟩]⟩ (by decide)
      ⟨35, -3, 3, 40, false⟩ (by decide),
    claim_C5_segment_partition.2.2.2.1 segTTFT ⟨[⟨10, -1, 1, 20, true⟩]⟩ (by decide)⟩

/-- C6: For every Trajectory whose last appended Transition has
`done = true` (the trajectory is complete), a further `add_transition` call
fails (the failure is reported, and in the functional model no changed
trajectory is produced, so the stored sequence is unchanged); while the
last transition has `done = false`, `add_transition` succeeds and appends.
The call fails exactly when the trajectory is complete. -/
theorem claim_C6_add_transition_closed :
    (∀ (t : Trajectory) (tr : Transition),
      t.add_transition tr = if t.complete then none else some ⟨t.transitions ++ [tr]⟩)
    ∧ (∀ (t : Trajectory) (tr : Transition),
        t.add_transition tr = none ↔ t.complete = true)
    ∧ trajComplete3.complete = true
    ∧ trajComplete3.add_transition ⟨0.1, 0.1, 1, 0.2, false⟩ = none
    ∧ trajOpen3.complete = false
    ∧ trajOpen3.add_transition ⟨0.1, 0.1, 1, 0.2, false⟩
        = some ⟨trajOpen3.transitions ++ [⟨0.1, 0.1, 1, 0.2, false⟩]⟩ :=
  ⟨fun _ _ => rfl,
    fun t tr => by
      cases h : t.complete <;> simp [Trajectory.add_transition, h],
    by decide, by decide, by decide, rfl⟩

/-- C9: `terminal_state_from_trajectory` returns the trailing next-state
iff the trajectory is complete and `none` otherwise, while
`final_state_from_trajectory` returns the trailing next-state
unconditionally; for every Segment, `terminal_state_from_segment` returns
one terminal state per complete partition (incomplete partitions are
skipped, not padded), while `final_state_from_segment` returns one final
next-state per partition unconditionally, with length equal to the number
of partitions including a possibly-incomplete trailing one. -/
theorem claim_C9_terminal_final_state :
    (∀ t : Trajectory, terminal_state_from_trajectory t
        = if t.complete then final_state_from_trajectory t else none)
    ∧ (∀ t : Trajectory, final_state_from_trajectory t
        = t.transitions.getLast?.map Transition.s_next)
    ∧ (∀ s : Segment, terminal_state_from_segment s
        = (s.trajectories.filter Trajectory.complete).filterMap final_state_from_trajectory)
    ∧ (∀ s : Segment, (final_state_from_segment s).length = s.trajectories.length)
    ∧ terminal_state_from_trajectory trajComplete3 = some 4
    ∧ terminal_state_from_trajectory trajOpen3 = none
    ∧ final_state_from_trajectory trajComplete3 = some 4
    ∧ final_state_from_trajectory trajOpen3 = some 4
    ∧ terminal_state_from_segment segFFTFT = [4, 7]
    ∧ final_state_from_segment segFFTFT = [4, 7]
    ∧ terminal_state_from_segment segFFTFF = [4]
    ∧ final_state_from_segment segFFTFF = [4, 7] :=
  ⟨fun _ => rfl, fun _ => rfl,
    fun s => filterMap_terminal_eq_filter s.trajectories,
    length_final_state_from_segment,
    by decide, by decide, by decide, by decide,
    by decide, by decide, by decide, by decide⟩

/-- C2: `bootstrapped_returns_from_trajectory(t, V_last, γ)` computes the
backward recurrence whose final step uses only `r[T-1]` when the trajectory
is complete (so the result does not depend on `V_last` at all) and
`r[T-1] + γ·V_last` when it is incomplete, with `acc = r[i] + γ·acc` for
earlier steps; rewards `[0.1,0.2,0.3]` with `V_last = 100`, `γ = 1` yield
`[0.6,0.5,0.3]` on the complete trajectory and `[100.6,100.5,100.3]` on the
incomplete variant.  The Segment flavor applies the same recurrence
independently per partition, consuming one `V_last` entry per partition,
and concatenates the results. -/
theorem claim_C2_bootstrapped_returns :
    (∀ (g v : ℚ) (t : Trajectory),
      bootstrapped_returns_from_trajectory t v g = bootReturns g v t.complete t.all_r)
    ∧ (∀ (g v₁ v₂ : ℚ) (rs : List ℚ),
        bootReturns g v₁ true rs = bootReturns g v₂ true rs)
    ∧ (∀ g v r : ℚ, bootReturns g v true [r] = [r])
    ∧ (∀ g v r : ℚ, bootReturns g v false [r] = [r + g * v])
    ∧ (∀ (g v : ℚ) (d : Bool) (r r2 : ℚ) (rs : List ℚ),
        bootReturns g v d (r :: r2 :: rs)
          = (r + g * (bootReturns g v d (r2 :: rs)).headD 0)
              :: bootReturns g v d (r2 :: rs))
    ∧ bootstrapped_returns_from_trajectory trajComplete3 100 1 = [0.6, 0.5, 0.3]
    ∧ bootstrapped_returns_from_trajectory trajOpen3 100 1 = [100.6, 100.5, 100.3]
    ∧ (∀ (s : Segment) (vl : List ℚ) (g : ℚ),
        bootstrapped_returns_from_segment s vl g
          = if vl.length = s.trajectories.length then
              some ((List.zipWith
                (fun t vlast => bootReturns g vlast t.complete t.all_r)
                s.trajectories vl).flatten)
            else none)
    ∧ bootstrapped_returns_from_segment segFFTFT [50, 100] 1
        = some [0.6, 0.5, 0.3, 1.1, 0.6]
    ∧ bootstrapped_returns_from_segment segFFTFF [50, 100] 1
        = some [0.6, 0.5, 0.3, 101.1, 100.6]
    ∧ bootstrapped_returns_from_segment segFFTFT [50] 1 = none :=
  ⟨fun _ _ _ => rfl, bootReturns_true_vlast,
    bootReturns_last_complete, bootReturns_last_incomplete,
    fun _ _ _ _ _ _ => rfl,
    by
      norm_num [bootstrapped_returns_from_trajectory, trajComplete3,
        Trajectory.complete, Trajectory.all_r, bootReturns],
    by
      norm_num [bootstrapped_returns_from_trajectory, trajOpen3,
        Trajectory.complete, Trajectory.all_r, bootReturns],
    fun _ _ _ => rfl,
    by
      norm_num [bootstrapped_returns_from_segment, segFFTFT, Segment.trajectories,
        partitionAux, Trajectory.complete, Trajectory.all_r, bootReturns],
    by
      norm_num [bootstrapped_returns_from_segment, segFFTFF, Segment.trajectories,
        partitionAux, Trajectory.complete, Trajectory.all_r, bootReturns],
    by decide⟩

/-- C3: For every input sequence, `gae(input, γ, λ)` succeeds exactly under
`0 ≤ γ ≤ 1` and `0 ≤ λ ≤ 1` and returns the backward recurrence `out` with
`out.length = input.length`, last element preserved
(`out[T-1] = input[T-1]`) and `out[i] = input[i] + γ·λ·out[i+1]` at every
index (stated with getD, default 0, which makes the recurrence hold for all
`i`); `gae([1,2,3,4,5], 0.5, 0.2) = [1.2345, 2.345, 3.45, 4.5, 5]` and the
call fails for γ or λ outside `[0,1]`; `gae_from_trajectory` and
`gae_from_segment` first compute the one-step TD errors (per partition for
a Segment) and then apply this recurrence within each partition
independently, so advantage estimates never cross an episode boundary. -/
theorem claim_C3_gae :
    (∀ (xs : List ℚ) (g lam : ℚ),
      gae xs g lam = if 0 ≤ g ∧ g ≤ 1 ∧ 0 ≤ lam ∧ lam ≤ 1 then
        some (discountedReturns (g * lam) xs) else none)
    ∧ (∀ (d : ℚ) (xs : List ℚ), (discountedReturns d xs).length = xs.length)
    ∧ (∀ (d : ℚ) (xs : List ℚ), (discountedReturns d xs).getLast? = xs.getLast?)
    ∧ (∀ (d : ℚ) (xs : List ℚ) (i : ℕ),
        (discountedReturns d xs).getD i 0
          = xs.getD i 0 + d * (discountedReturns d xs).getD (i + 1) 0)
    ∧ gae [1, 2, 3, 4, 5] 0.5 0.2 = some [1.2345, 2.345, 3.45, 4.5, 5]
    ∧ gae [1, 2, 3, 4, 5] (-1) (-1) = none
    ∧ gae [1, 2, 3, 4, 5] 1.1 1.1 = none
    ∧ (∀ (t : Trajectory) (vs : List ℚ) (vlast g lam : ℚ),
        gae_from_trajectory t vs vlast g lam
          = (td0_error_from_trajectory t vs vlast g).bind (fun ds => gae ds g lam))
    ∧ gae_from_trajectory trajOpen4 [1, 2, 3, 4] 5 0.2 0.5
        = some [-0.6416, -1.416, -2.16, -2.6]
    ∧ gae_from_trajectory trajDone4 [1, 2, 3, 4] 5 0.2 0.5
        = some [-0.6426, -1.426, -2.26, -3.6]
    ∧ gae_from_segment segFFTFT [[1, 2, 3], [1, 2]] [4, 3] 0.2 0.5
        = some [-0.647, -1.47, -2.7, -0.24, -1.4]
    ∧ gae_from_segment segFFTFF [[1, 2, 3], [1, 2]] [4, 3] 0.2 0.5
        = some [-0.647, -1.47, -2.7, -0.18, -0.8] :=
  ⟨fun _ _ _ => rfl, length_discountedReturns, getLast?_discountedReturns,
    discountedReturns_getD,
    by norm_num [gae, discountedReturns],
    by norm_num [gae],
    by norm_num [gae],
    fun _ _ _ _ _ => rfl,
    by
      norm_num [gae_from_trajectory, td0_error_from_trajectory, td0_error,
        td0_target_core, trajOpen4, Trajectory.complete, Trajectory.all_r, gae,
        discountedReturns],
    by
      norm_num [gae_from_trajectory, td0_error_from_trajectory, td0_error,
        td0_target_core, trajDone4, Trajectory.complete, Trajectory.all_r, gae,
        discountedReturns],
    by
      norm_num [gae_from_segment, segFFTFT, Segment.trajectories, partitionAux,
        Trajectory.T, td0_error_one, td0_target_core, Trajectory.complete,
        Trajectory.all_r, discountedReturns],
    by
      norm_num [gae_from_segment, segFFTFF, Segment.trajectories, partitionAux,
        Trajectory.T, td0_error_one, td0_target_core, Trajectory.complete,
        Trajectory.all_r, discountedReturns]⟩

/-- C4: For rewards and values supplied as plain numeric sequences,
`td0_target(rewards, values, γ)` succeeds exactly when
`len(values) = len(rewards) + 1` and `0 ≤ γ ≤ 1`, returning
`target[i] = reward[i] + γ·values[i+1]` for every `i`; the test vectors
`[0.1,0.2,0.3,0.4]` with values `[1,2,3,4,5]` and γ = 0.1 give
`[0.3,0.5,0.7,0.9]`, and with the final value forced to 0 give
`[0.3,0.5,0.7,0.4]`; in the Trajectory-flavored entry point the bootstrap
value appended to the value sequence is zeroed exactly when the
trajectory's last transition is terminal. -/
theorem claim_C4_td0_target :
    (∀ (rs vs : List ℚ) (g : ℚ),
      td0_target rs vs g = if vs.length = rs.length + 1 ∧ 0 ≤ g ∧ g ≤ 1 then
        some (td0_target_core g rs vs) else none)
    ∧ (∀ (g : ℚ) (rs vs : List ℚ), vs.length = rs.length + 1 →
        ∀ i, (td0_target_core g rs vs).getD i 0 = rs.getD i 0 + g * vs.getD (i + 1) 0)
    ∧ (∀ (rs vs : List ℚ) (g : ℚ),
        vs.length ≠ rs.length + 1 ∨ g < 0 ∨ 1 < g → td0_target rs vs g = none)
    ∧ td0_target [0.1, 0.2, 0.3, 0.4] [1, 2, 3, 4, 5] 0.1 = some [0.3, 0.5, 0.7, 0.9]
    ∧ td0_target [0.1, 0.2, 0.3, 0.4] [1, 2, 3, 4, 0] 0.1 = some [0.3, 0.5, 0.7, 0.4]
    ∧ td0_target [0.1, 0.2] [1, 2] 0.1 = none
    ∧ td0_target [0.1, 0.2] [1, 2, 3] (-1) = none
    ∧ td0_target [0.1, 0.2] [1, 2, 3] 1.1 = none
    ∧ (∀ (t : Trajectory) (vs : List ℚ) (vlast g : ℚ),
        td0_target_from_trajectory t vs vlast g
          = td0_target t.all_r (vs ++ [if t.complete then 0 else vlast]) g)
    ∧ td0_target_from_trajectory trajOpen4 [1, 2, 3, 4] 5 0.1
        = some [0.3, 0.5, 0.7, 0.9]
    ∧ td0_target_from_trajectory trajDone4 [1, 2, 3, 4] 5 0.1
        = some [0.3, 0.5, 0.7, 0.4] :=
  ⟨fun _ _ _ => rfl, td0_target_core_getD,
    fun rs vs g h => by
      unfold td0_target
      rw [if_neg]
      rintro ⟨h1, h2, h3⟩
      rcases h with h | h | h
      · exact h h1
      · linarith
      · linarith,
    by norm_num [td0_target, td0_target_core],
    by norm_num [td0_target, td0_target_core],
    by norm_num [td0_target],
    by norm_num [td0_target],
    by norm_num [td0_target],
    fun _ _ _ _ => rfl,
    by
      norm_num [td0_target_from_trajectory, td0_target, td0_target_core, trajOpen4,
        Trajectory.complete, Trajectory.all_r],
    by
      norm_num [td0_target_from_trajectory, td0_target, td0_target_core, trajDone4,
        Trajectory.complete, Trajectory.all_r]⟩

/-- C4 witness: the index characterization applied at γ = 1,
rewards `[1, 2]`, values `[3, 4, 5]`, index 0, and the failure clause
applied at a value sequence of the wrong length. -/
theorem claim_C4_td0_target_witness :
    (td0_target_core 1 [1, 2] [3, 4, 5]).getD 0 0
        = ([1, 2] : List ℚ).getD 0 0 + 1 * ([3, 4, 5] : List ℚ).getD 1 0
    ∧ td0_target [1] [1] 1 = none :=
  ⟨claim_C4_td0_target.2.1 1 [1, 2] [3, 4, 5] (by decide) 0,
    claim_C4_td0_target.2.2.1 [1] [1] 1 (Or.inl (by decide))⟩

/-- C7 counterexample: the claimed mask formula
`masks[n, t] = 1 - dones[n, t-1]` for `t ≥ 1` fails at `n = 0`, `t = 1` on
the History from `test_history` (N = 3, T = 5, `dones[:, 0]` written to
`False`, remaining dones still at their preallocated `True`): the derived
mask entry is `0`, while the claimed formula gives
`1 - dones[0, 0] = 1`. -/
theorem claim_C7_counterexample :
    (historyWritten.masks.getD 0 []).getD 1 0
      ≠ 1 - (if (historyWritten.dones.getD 0 []).getD 0 true then (1 : ℚ) else 0) := by
  have h1 : (historyWritten.masks.getD 0 []).getD 1 0 = 0 := by decide
  have h2 : (historyWritten.dones.getD 0 []).getD 0 true = false := by decide
  rw [h1, h2]
  norm_num

/-- C7 (amended): the derived masks are the elementwise complement of the
dones without any index shift, `masks[n, t] = 1 - dones[n, t]`
(`0` where `dones[n, t]` is true, `1` where it is false); since `dones` is
preallocated to true, every mask of a freshly constructed History is `0`,
and after the test's write of `dones[:, 0] = False` the masks are
`[1, 0, 0, 0, 0]` in every row, so every step at or after a still-true done
flag is masked out. -/
theorem claim_C7_masks :
    (∀ h : History,
      h.masks = h.dones.map (List.map (fun d => if d then (0 : ℚ) else 1)))
    ∧ (∀ n t d : ℕ,
        (History.make n t d).masks = List.replicate n (List.replicate t 0))
    ∧ historyWritten.masks
        = [[1, 0, 0, 0, 0], [1, 0, 0, 0, 0], [1, 0, 0, 0, 0]] :=
  ⟨fun _ => rfl,
    fun n t d => by
      simp [History.masks, History.make, List.map_replicate],
    by decide⟩

/-- C8 counterexample: History construction does not zero-fill all arrays
as claimed: the preallocated `dones` of `History.make 3 5 4` is not the
all-false (zero) matrix — it is preallocated all-true (pinned by
`test_history`, which observes `dones[:, 1:]` all `True` after writing only
column 0). -/
theorem claim_C8_counterexample :
    ¬ ((History.make 3 5 4).dones = List.replicate 3 (List.replicate 5 false)) := by
  decide

/-- C8 (amended): constructing a History over N environments with horizon T
preallocates observations with shape (N, T+1, obs-dims) zero-filled,
rewards with shape (N, T) zero-filled, dones with shape (N, T) filled with
ones (true), plus an infos list of length T with every element unset
(`None`) and an empty `extra_info`; for N = 3, T = 5, obs-dim 4 the shapes
are (3, 6, 4), (3, 5) and (3, 5). -/
theorem claim_C8_history_prealloc :
    (∀ n t d : ℕ,
      (History.make n t d).observations
          = List.replicate n (List.replicate (t + 1) (List.replicate d 0))
        ∧ (History.make n t d).rewards = List.replicate n (List.replicate t 0)
        ∧ (History.make n t d).dones = List.replicate n (List.replicate t true)
        ∧ (History.make n t d).infos = List.replicate t none
        ∧ (History.make n t d).extra_info = [])
    ∧ ((History.make 3 5 4).observations.length = 3
        ∧ ((History.make 3 5 4).observations.getD 0 []).length = 6
        ∧ (((History.make 3 5 4).observations.getD 0 []).getD 0 []).length = 4
        ∧ (History.make 3 5 4).rewards.length = 3
        ∧ ((History.make 3 5 4).rewards.getD 0 []).length = 5
        ∧ (History.make 3 5 4).dones.length = 3
        ∧ ((History.make 3 5 4).dones.getD 0 []).length = 5
        ∧ (History.make 3 5 4).infos.length = 5
        ∧ (History.make 3 5 4).infos.all Option.isNone = true) :=
  ⟨fun _ _ _ => ⟨rfl, rfl, rfl, rfl, rfl⟩, by decide⟩

/-- C10 counterexample: under the claim's reading of `add_t(name, value, t)`
the test call `add_t('oh', 3, -5)` has `t = -5 ∉ [0, 5)` and would have to
fail with an IndexError; instead the call succeeds, and the resulting
per-timestep array for `'oh'` holds `-5` (the third argument, which is
therefore the stored value) at index `3` (the second argument, which is
therefore the timestep). -/
theorem claim_C10_counterexample :
    (History.make 3 5 4).add_t "oh" 3 (-5) ≠ none
    ∧ ((History.make 3 5 4).add_t "oh" 3 (-5)).map (fun h => h.arrays.lookup "oh")
        = some (some [none, none, none, some (-5), none]) := by
  exact ⟨by decide, by decide⟩

/-- C10 (amended): for every History, `add(name, value)` stores the value
on the first call and fails with a duplicate-key error on a second call
with the same name; `add_t(name, t, value)` — timestep before value, as the
test pins — fails with an index error whenever `t ∉ [0, T)`, and the first
successful call for a name allocates a length-T array initialized to
`None` at every index other than `t`, where it stores the value. -/
theorem claim_C10_add_add_t :
    (∀ (h : History) (name : String) (v : ℚ),
      (h.add name v).isSome ↔ h.scalars.lookup name = none)
    ∧ (∀ (h : History) (name : String) (v w : ℚ) (h' : History),
        h.add name v = some h' → h'.add name w = none)
    ∧ (∀ (h : History) (name : String) (t : Int) (v : ℚ),
        t < 0 ∨ (h.T : Int) ≤ t → h.add_t name t v = none)
    ∧ (∀ (h : History) (name : String) (t : Int) (v : ℚ),
        h.arrays.lookup name = none → 0 ≤ t → t < (h.T : Int) →
          h.add_t name t v = some { h with
            arrays := (name, (List.replicate h.T (none : Option ℚ)).set t.toNat
              (some v)) :: h.arrays })
    ∧ (History.make 3 5 4).add_t "oh" 99 0 = none :=
  ⟨fun h name v => by
      unfold History.add
      cases hl : h.scalars.lookup name <;> simp [hl],
    fun h name v w h' hadd => by
      unfold History.add at hadd
      split at hadd
      next => exact Option.noConfusion hadd
      next hl =>
        cases hadd
        simp [History.add, List.lookup],
    fun h name t v ht => by
      unfold History.add_t
      rw [if_neg]
      rintro ⟨h1, h2⟩
      rcases ht with ht | ht
      · omega
      · omega,
    fun h name t v hl h0 hT => by
      simp only [History.add_t, hl]
      rw [if_pos ⟨h0, hT⟩],
    by decide⟩

/-- C10 witness: the amended clauses applied on concrete inputs: re-adding
`'one'` after a successful `add` fails; `add_t` with timestep `-1` fails;
and the test call `add_t('oh', 3, -5)` on a fresh History allocates the
length-5 `None` array with `-5` stored at index 3. -/
theorem claim_C10_add_add_t_witness :
    ({ History.make 3 5 4 with scalars := [("one", 1)] } : History).add "one" 2 = none
    ∧ (History.make 3 5 4).add_t "x" (-1) 0 = none
    ∧ (History.make 3 5 4).add_t "oh" 3 (-5)
        = some { History.make 3 5 4 with
            arrays := [("oh", (List.replicate 5 (none : Option ℚ)).set 3 (some (-5)))] } :=
  ⟨claim_C10_add_add_t.2.1 (History.make 3 5 4) "one" 1 2
      { History.make 3 5 4 with scalars := [("one", 1)] } rfl,
    claim_C10_add_add_t.2.2.1 (History.make 3 5 4) "x" (-1) 0 (Or.inl (by decide)),
    claim_C10_add_add_t.2.2.2.1 (History.make 3 5 4) "oh" 3 (-5) rfl
      (by decide) (by decide)⟩

end Lagom
